import Mathlib

/-!
Shallow embedding of the LLR (log-likelihood-ratio) heatmap scorer from the
notebook Log-Likelihood-Ratios.ipynb: the functions interactive_heatmap /
update_heatmap / generate_heatmap.  The tokenizer and the masked-language
model are external collaborators; they are embedded as abstract data
(a per-residue vocabulary lookup, sentinel and mask token ids, and a raw
logits function), and generate_heatmap is translated line by line:
load tokenizer and model from the fixed pretrained name, tokenize once,
default the end position to the sequence length, allocate a 20 x
(end - start + 1) zero matrix, and for each position in the range mask a
cloned copy of the token tensor at that position, take softmax-then-log of
the logits at that index, and write log_prob_mt - log_prob_wt into the
matrix.  Calls to external resources are recorded in an effect trace.
-/

namespace Esm

/-- Token ids in the tokenizer vocabulary. -/
abbrev TokenId := Nat

/-- The fixed 20-letter amino-acid alphabet, in the order the notebook uses:
list("ACDEFGHIKLMNPQRSTVWY"). -/
def amino_acids : List Char := "ACDEFGHIKLMNPQRSTVWY".toList

/-- Failures the scorer can surface: a sequence residue outside the
vocabulary (tokenizer.encode), an amino-acid letter with no vocabulary id
(tokenizer.convert_tokens_to_ids), a negative dimension passed to np.zeros,
or an out-of-bounds tensor index. -/
inductive ScoreError where
  | unknownResidue (c : Char)
  | unknownToken (c : Char)
  | negativeDimension (d : Int)
  | indexError (i : Nat)
deriving DecidableEq, Repr

/-- The tokenizer collaborator: a per-residue vocabulary lookup plus the
special token ids.  Modelled from the spec: the concrete Hugging Face
tokenizer is not part of this repository; per the spec an unknown residue
symbol or a missing vocabulary token must fail rather than silently score,
so the lookup is Option-valued. -/
structure Tokenizer where
  token_id : Char → Option TokenId
  cls_token_id : TokenId
  eos_token_id : TokenId
  mask_token_id : TokenId

/-- Per-residue encoding of the raw sequence, failing on the first residue
outside the vocabulary. -/
def Tokenizer.encodeCore (tk : Tokenizer) : List Char → Except ScoreError (List TokenId)
  | [] => Except.ok []
  | c :: cs =>
    match tk.token_id c with
    | none => Except.error (ScoreError.unknownResidue c)
    | some t => (tk.encodeCore cs).map (fun ts => t :: ts)

/-- tokenizer.encode: the residue token ids framed by the start and end
sentinel tokens. -/
def Tokenizer.encode (tk : Tokenizer) (s : List Char) : Except ScoreError (List TokenId) :=
  (tk.encodeCore s).map (fun ts => tk.cls_token_id :: (ts ++ [tk.eos_token_id]))

/-- tokenizer.convert_tokens_to_ids on a single amino-acid letter. -/
def Tokenizer.convert_tokens_to_ids (tk : Tokenizer) (c : Char) : Option TokenId :=
  tk.token_id c

/-- The model collaborator: a vocabulary size and the raw output logits, a
real number for every (input token sequence, sequence index, vocabulary id).
A deterministic function, as the spec assumes. -/
structure Model where
  vocab_size : Nat
  logits : List TokenId → Nat → Nat → ℝ

/-- torch.nn.functional.softmax of the logits row at index idx, evaluated at
vocabulary id j. -/
noncomputable def Model.probabilities (m : Model) (ids : List TokenId) (idx : Nat) (j : Nat) : ℝ :=
  Real.exp (m.logits ids idx j) / ∑ k ∈ Finset.range m.vocab_size, Real.exp (m.logits ids idx k)

/-- torch.log of the softmax probabilities, elementwise. -/
noncomputable def Model.log_probabilities (m : Model) (ids : List TokenId) (idx : Nat) (j : Nat) : ℝ :=
  Real.log (m.probabilities ids idx j)

/-- The LLR table: np.zeros((20, end_pos - start_pos + 1)) with in-place
cell assignment, embedded as an explicit shape plus an entry function. -/
structure Heatmap where
  rows : Nat
  cols : Nat
  entry : Nat → Nat → ℝ

/-- Assignment heatmap[r, c] = v on the entry function; the shape is
unchanged. -/
def Heatmap.set (h : Heatmap) (r c : Nat) (v : ℝ) : Heatmap :=
  { h with entry := fun r' c' => if r' = r ∧ c' = c then v else h.entry r' c' }

/-- masked_input_ids = input_ids.clone(); masked_input_ids[0, position] =
tokenizer.mask_token_id.  List.set returns a fresh list, so the shared
input_ids is untouched, exactly as clone-then-assign leaves the original
tensor untouched. -/
def maskedInput (tk : Tokenizer) (input_ids : List TokenId) (position : Nat) : List TokenId :=
  input_ids.set position tk.mask_token_id

/-- The log-likelihood ratio the loop body computes for substituting the
token tid at position p: the log of the softmax probability of tid minus the
log of the softmax probability of the original token of the tokenized
sequence at p, both read from one forward pass on the copy masked at p. -/
noncomputable def llr (m : Model) (tk : Tokenizer) (input_ids : List TokenId)
    (p : Nat) (tid : TokenId) : ℝ :=
  m.log_probabilities (maskedInput tk input_ids p) p tid -
    m.log_probabilities (maskedInput tk input_ids p) p (input_ids.getD p 0)

/-- The inner loop: for i, amino_acid in enumerate(amino_acids):
heatmap[i, position - start_pos] = log_prob_mt - log_prob_wt, where
log_prob_mt is read at tokenizer.convert_tokens_to_ids(amino_acid).  The
index accumulator i mirrors enumerate. -/
def fillColumn (tk : Tokenizer) (log_probs : Nat → ℝ) (log_prob_wt : ℝ) (col : Nat) :
    Nat → List Char → Heatmap → Except ScoreError Heatmap
  | _, [], h => Except.ok h
  | i, aa :: rest, h =>
    match tk.convert_tokens_to_ids aa with
    | none => Except.error (ScoreError.unknownToken aa)
    | some tid => fillColumn tk log_probs log_prob_wt col (i + 1) rest
        (h.set i col (log_probs tid - log_prob_wt))

/-- One iteration of the position loop: mask the target position on a clone,
run the model, softmax-then-log the logits at the masked index, read the
wild-type log-probability at the original token of that index, and fill
column position - start_pos.  Tensor indexing out of range raises. -/
noncomputable def scorePosition (tk : Tokenizer) (m : Model) (input_ids : List TokenId)
    (start_pos position : Nat) (h : Heatmap) : Except ScoreError Heatmap :=
  if position < input_ids.length then
    let masked_input_ids := maskedInput tk input_ids position
    let log_probs : Nat → ℝ := fun j => m.log_probabilities masked_input_ids position j
    let wt_residue := input_ids.getD position 0
    let log_prob_wt := log_probs wt_residue
    fillColumn tk log_probs log_prob_wt (position - start_pos) 0 amino_acids h
  else Except.error (ScoreError.indexError position)

/-- The position loop: for position in range(start_pos, end_pos + 1), over an
explicit list of positions. -/
noncomputable def scoreLoop (tk : Tokenizer) (m : Model) (input_ids : List TokenId)
    (start_pos : Nat) : List Nat → Heatmap → Except ScoreError Heatmap
  | [], h => Except.ok h
  | p :: ps, h =>
    match scorePosition tk m input_ids start_pos p h with
    | Except.error e => Except.error e
    | Except.ok h' => scoreLoop tk m input_ids start_pos ps h'

/-- Calls generate_heatmap makes to external resources, recorded as a trace:
the two from_pretrained loads and the final matplotlib rendering. -/
inductive Effect where
  | load_tokenizer (name : String)
  | load_model (name : String)
  | show_plot
deriving DecidableEq, Repr

/-- The ambient library: from_pretrained for the tokenizer and for the
masked-LM head, each keyed by the pretrained model name. -/
structure Env where
  autoTokenizer_from_pretrained : String → Tokenizer
  esmForMaskedLM_from_pretrained : String → Model

/-- The hard-coded pretrained checkpoint name in generate_heatmap. -/
def model_name : String := "facebook/esm2_t6_8M_UR50D"

/-- generate_heatmap(protein_sequence, start_pos=1, end_pos=None): loads the
tokenizer and model from the fixed name, tokenizes the sequence once,
defaults end_pos to the sequence length (token count minus the two
sentinels), allocates np.zeros((20, end_pos - start_pos + 1)), runs the
position loop, and renders.  Returns the scoring outcome paired with the
effect trace. -/
noncomputable def generate_heatmap (env : Env) (protein_sequence : List Char)
    (start_pos : Nat := 1) (end_pos? : Option Nat := none) :
    Except ScoreError Heatmap × List Effect :=
  let tokenizer := env.autoTokenizer_from_pretrained model_name
  let model := env.esmForMaskedLM_from_pretrained model_name
  let loads := [Effect.load_tokenizer model_name, Effect.load_model model_name]
  match tokenizer.encode protein_sequence with
  | Except.error e => (Except.error e, loads)
  | Except.ok input_ids =>
    let sequence_length := input_ids.length - 2
    let end_pos := end_pos?.getD sequence_length
    let dim : Int := (end_pos : Int) - (start_pos : Int) + 1
    if dim < 0 then (Except.error (ScoreError.negativeDimension dim), loads)
    else
      let heatmap0 : Heatmap := ⟨20, dim.toNat, fun _ _ => 0⟩
      let positions := List.range' start_pos (end_pos + 1 - start_pos)
      match scoreLoop tokenizer model input_ids start_pos positions heatmap0 with
      | Except.error e => (Except.error e, loads)
      | Except.ok h => (Except.ok h, loads ++ [Effect.show_plot])

/-- update_heatmap(start, end): the widget callback guarding the scorer;
it calls generate_heatmap only when start <= end and otherwise does
nothing at all (returns none: no call, no error). -/
noncomputable def update_heatmap (env : Env) (protein_sequence : List Char)
    (start_pos end_pos : Nat) : Option (Except ScoreError Heatmap × List Effect) :=
  if start_pos ≤ end_pos then some (generate_heatmap env protein_sequence start_pos (some end_pos))
  else none

/-- A concrete tokenizer for witnesses: each alphabet letter maps to its
alphabet index plus 4, mirroring the ESM vocabulary layout; anything else is
out of vocabulary. -/
def testTokenizer : Tokenizer where
  token_id := fun c => (amino_acids.findIdx? (fun a => a = c)).map (fun i => i + 4)
  cls_token_id := 0
  eos_token_id := 2
  mask_token_id := 32

/-- A concrete deterministic model for witnesses: all logits zero over a
33-token vocabulary. -/
def testModel : Model where
  vocab_size := 33
  logits := fun _ _ _ => 0

/-- A concrete environment serving the test tokenizer and model for every
pretrained name. -/
def testEnv : Env where
  autoTokenizer_from_pretrained := fun _ => testTokenizer
  esmForMaskedLM_from_pretrained := fun _ => testModel

/-! Helper lemmas about list update, encoding and the two loops. -/

lemma getD_set_self {l : List TokenId} {p : Nat} (v d : TokenId) (hp : p < l.length) :
    (l.set p v).getD p d = v := by
  rw [List.getD_eq_getElem?_getD, List.getElem?_set_self (by simpa using hp)]
  rfl

lemma getD_set_ne {l : List TokenId} {p j : Nat} (v d : TokenId) (hj : j ≠ p) :
    (l.set p v).getD j d = l.getD j d := by
  rw [List.getD_eq_getElem?_getD, List.getD_eq_getElem?_getD,
    List.getElem?_set_ne (Ne.symm hj)]

lemma length_maskedInput (tk : Tokenizer) (input_ids : List TokenId) (p : Nat) :
    (maskedInput tk input_ids p).length = input_ids.length := by
  simp [maskedInput]

lemma maskedInput_getD_self (tk : Tokenizer) {input_ids : List TokenId} {p : Nat}
    (hp : p < input_ids.length) :
    (maskedInput tk input_ids p).getD p 0 = tk.mask_token_id :=
  getD_set_self _ _ hp

lemma maskedInput_getD_ne (tk : Tokenizer) (input_ids : List TokenId) {p j : Nat}
    (hj : j ≠ p) :
    (maskedInput tk input_ids p).getD j 0 = input_ids.getD j 0 :=
  getD_set_ne _ _ hj

/-- When every residue of the sequence is in the vocabulary, encodeCore
succeeds and produces exactly the per-residue token ids. -/
lemma encodeCore_ok (tk : Tokenizer) :
    ∀ (s : List Char), (∀ c ∈ s, (tk.token_id c).isSome) →
    ∃ ts, tk.encodeCore s = Except.ok ts ∧ ts.length = s.length ∧
      ∀ k, k < s.length → tk.token_id (s.getD k 'A') = some (ts.getD k 0)
  | [], _ => ⟨[], rfl, rfl, by intro k hk; simp at hk⟩
  | c :: cs, hall => by
    obtain ⟨t, ht⟩ := Option.isSome_iff_exists.mp (hall c (List.mem_cons_self c cs))
    obtain ⟨ts, hts, hlen, hval⟩ :=
      encodeCore_ok tk cs (fun a ha => hall a (List.mem_cons_of_mem c ha))
    refine ⟨t :: ts, ?_, by simp [hlen], ?_⟩
    · simp [Tokenizer.encodeCore, ht, hts, Except.map]
    · intro k hk
      cases k with
      | zero => simpa using ht
      | succ k' =>
        have : k' < cs.length := by simpa using hk
        simpa using hval k' this

/-- When some residue of the sequence is outside the vocabulary, encodeCore
fails with an unknownResidue error naming such a residue. -/
lemma encodeCore_error (tk : Tokenizer) :
    ∀ (s : List Char), (∃ c ∈ s, tk.token_id c = none) →
    ∃ c, tk.encodeCore s = Except.error (ScoreError.unknownResidue c) ∧
      c ∈ s ∧ tk.token_id c = none
  | [], hbad => by simp at hbad
  | c :: cs, hbad => by
    cases hc : tk.token_id c with
    | none => exact ⟨c, by simp [Tokenizer.encodeCore, hc], List.mem_cons_self c cs, hc⟩
    | some t =>
      have hcs : ∃ a ∈ cs, tk.token_id a = none := by
        obtain ⟨a, ha, hnone⟩ := hbad
        rcases List.mem_cons.mp ha with rfl | ha'
        · exact absurd hnone (by simp [hc])
        · exact ⟨a, ha', hnone⟩
      obtain ⟨a, ha, hmem, hnone⟩ := encodeCore_error tk cs hcs
      refine ⟨a, ?_, List.mem_cons_of_mem c hmem, hnone⟩
      simp [Tokenizer.encodeCore, hc, ha, Except.map]

/-- Successful tokenization: the framed token list has length L + 2, and for
every 1-indexed residue position p the token at internal index p is the
vocabulary id of residue p (the start sentinel occupies index 0). -/
lemma encode_ok (tk : Tokenizer) (s : List Char)
    (hall : ∀ c ∈ s, (tk.token_id c).isSome) :
    ∃ ids, tk.encode s = Except.ok ids ∧ ids.length = s.length + 2 ∧
      ∀ p, 1 ≤ p → p ≤ s.length → tk.token_id (s.getD (p - 1) 'A') = some (ids.getD p 0) := by
  obtain ⟨ts, hts, hlen, hval⟩ := encodeCore_ok tk s hall
  refine ⟨tk.cls_token_id :: (ts ++ [tk.eos_token_id]), ?_, by simp [hlen], ?_⟩
  · simp [Tokenizer.encode, hts, Except.map]
  · intro p hp1 hp2
    obtain ⟨q, rfl⟩ : ∃ q, p = q + 1 := ⟨p - 1, by omega⟩
    have hq : q < ts.length := by omega
    have h1 : (tk.cls_token_id :: (ts ++ [tk.eos_token_id])).getD (q + 1) 0 =
        (ts ++ [tk.eos_token_id]).getD q 0 := rfl
    have h2 : (ts ++ [tk.eos_token_id]).getD q 0 = ts.getD q 0 := by
      rw [List.getD_eq_getElem?_getD, List.getD_eq_getElem?_getD,
        List.getElem?_append_left hq]
    rw [h1, h2]
    have := hval q (by omega)
    simpa using this

/-- Failing tokenization: an out-of-vocabulary residue makes encode fail with
an unknownResidue error naming such a residue. -/
lemma encode_error (tk : Tokenizer) (s : List Char)
    (hbad : ∃ c ∈ s, tk.token_id c = none) :
    ∃ c, tk.encode s = Except.error (ScoreError.unknownResidue c) ∧
      c ∈ s ∧ tk.token_id c = none := by
  obtain ⟨c, hc, hmem, hnone⟩ := encodeCore_error tk s hbad
  exact ⟨c, by simp [Tokenizer.encode, hc, Except.map], hmem, hnone⟩

lemma Heatmap.set_rows (h : Heatmap) (r c : Nat) (v : ℝ) : (h.set r c v).rows = h.rows := rfl

lemma Heatmap.set_cols (h : Heatmap) (r c : Nat) (v : ℝ) : (h.set r c v).cols = h.cols := rfl

/-- Full behaviour of the inner amino-acid loop when every letter of the
list has a vocabulary id: it succeeds, preserves the shape, writes only the
cells (i + k, col) for k below the list length, and writes there the LLR of
the k-th letter's token id. -/
lemma fillColumn_spec (tk : Tokenizer) (lp : Nat → ℝ) (wt : ℝ) (col : Nat) :
    ∀ (l : List Char) (i : Nat) (h : Heatmap),
    (∀ aa ∈ l, (tk.token_id aa).isSome) →
    ∃ h', fillColumn tk lp wt col i l h = Except.ok h' ∧
      h'.rows = h.rows ∧ h'.cols = h.cols ∧
      (∀ r c, (c ≠ col ∨ r < i ∨ i + l.length ≤ r) → h'.entry r c = h.entry r c) ∧
      (∀ k, k < l.length → ∀ tid, tk.token_id (l.getD k 'A') = some tid →
        h'.entry (i + k) col = lp tid - wt)
  | [], i, h, _ => ⟨h, rfl, rfl, rfl, fun _ _ _ => rfl, fun k hk => by simp at hk⟩
  | aa :: rest, i, h, hall => by
    obtain ⟨tid0, htid0⟩ := Option.isSome_iff_exists.mp (hall aa (List.mem_cons_self aa rest))
    obtain ⟨h', hok, hrows, hcols, hframe, hval⟩ :=
      fillColumn_spec tk lp wt col rest (i + 1) (h.set i col (lp tid0 - wt))
        (fun a ha => hall a (List.mem_cons_of_mem aa ha))
    refine ⟨h', ?_, hrows, hcols, ?_, ?_⟩
    · simpa [fillColumn, Tokenizer.convert_tokens_to_ids, htid0] using hok
    · intro r c hrc
      have hstep : h'.entry r c = (h.set i col (lp tid0 - wt)).entry r c := by
        apply hframe
        rcases hrc with hc | hr | hr
        · exact Or.inl hc
        · exact Or.inr (Or.inl (by omega))
        · exact Or.inr (Or.inr (by simp at hr ⊢; omega))
      rw [hstep]
      have hri : ¬(r = i ∧ c = col) := by
        rcases hrc with hc | hr | hr
        · exact fun hand => hc hand.2
        · exact fun hand => by omega
        · exact fun hand => by simp at hr; omega
      simp [Heatmap.set, hri]
    · intro k hk tid htid
      cases k with
      | zero =>
        have htid' : tid = tid0 := by
          simp at htid
          rw [htid] at htid0
          exact Option.some_inj.mp htid0
        have hstep : h'.entry (i + 0) col = (h.set i col (lp tid0 - wt)).entry (i + 0) col :=
          hframe _ _ (Or.inr (Or.inl (by omega)))
        rw [hstep, htid']
        simp [Heatmap.set]
      | succ k' =>
        have hk' : k' < rest.length := by simpa using hk
        have := hval k' hk' tid (by simpa using htid)
        have harith : i + (k' + 1) = (i + 1) + k' := by omega
        rw [harith]
        exact this

lemma amino_acids_length : amino_acids.length = 20 := rfl

/-- Behaviour of one position iteration when the index is in range and all
amino-acid letters have vocabulary ids: it succeeds, preserves the shape,
writes only column position - start_pos (rows below 20), and writes there
the LLR values computed from the masked copy of the shared token list. -/
lemma scorePosition_spec (tk : Tokenizer) (m : Model) (input_ids : List TokenId)
    (start_pos position : Nat) (h : Heatmap)
    (hpos : position < input_ids.length)
    (haa : ∀ aa ∈ amino_acids, (tk.token_id aa).isSome) :
    ∃ h', scorePosition tk m input_ids start_pos position h = Except.ok h' ∧
      h'.rows = h.rows ∧ h'.cols = h.cols ∧
      (∀ r c, (c ≠ position - start_pos ∨ 20 ≤ r) → h'.entry r c = h.entry r c) ∧
      (∀ k, k < 20 → ∀ tid, tk.token_id (amino_acids.getD k 'A') = some tid →
        h'.entry k (position - start_pos) = llr m tk input_ids position tid) := by
  obtain ⟨h', hok, hrows, hcols, hframe, hval⟩ :=
    fillColumn_spec tk
      (fun j => m.log_probabilities (maskedInput tk input_ids position) position j)
      (m.log_probabilities (maskedInput tk input_ids position) position (input_ids.getD position 0))
      (position - start_pos) amino_acids 0 h haa
  refine ⟨h', ?_, hrows, hcols, ?_, ?_⟩
  · simpa [scorePosition, hpos] using hok
  · intro r c hrc
    apply hframe
    rcases hrc with hc | hr
    · exact Or.inl hc
    · exact Or.inr (Or.inr (by rw [amino_acids_length]; omega))
  · intro k hk tid htid
    have := hval k (by rw [amino_acids_length]; exact hk) tid htid
    simpa [llr] using this

/-- Behaviour of the position loop over range(s, s + n) when all positions
are in range of the token list and all amino-acid letters have vocabulary
ids: it succeeds, preserves the shape, leaves columns left of s - start_pos
untouched, and ends with every scored cell holding the LLR of its position
computed from the original shared token list. -/
lemma scoreLoop_spec (tk : Tokenizer) (m : Model) (input_ids : List TokenId)
    (start_pos : Nat) (haa : ∀ aa ∈ amino_acids, (tk.token_id aa).isSome) :
    ∀ (n s : Nat) (h : Heatmap), start_pos ≤ s →
    (∀ p, s ≤ p → p < s + n → p < input_ids.length) →
    ∃ h', scoreLoop tk m input_ids start_pos (List.range' s n) h = Except.ok h' ∧
      h'.rows = h.rows ∧ h'.cols = h.cols ∧
      (∀ r c, c + start_pos < s → h'.entry r c = h.entry r c) ∧
      (∀ p, s ≤ p → p < s + n → ∀ k, k < 20 → ∀ tid,
        tk.token_id (amino_acids.getD k 'A') = some tid →
        h'.entry k (p - start_pos) = llr m tk input_ids p tid)
  | 0, s, h, _, _ => by
    refine ⟨h, by simp [scoreLoop], rfl, rfl, fun _ _ _ => rfl, ?_⟩
    intro p hp1 hp2
    exact absurd hp2 (by omega)
  | n + 1, s, h, hs, hb => by
    have hrange : List.range' s (n + 1) = s :: List.range' (s + 1) n := List.range'_succ s n 1
    obtain ⟨h₁, hok₁, hrows₁, hcols₁, hframe₁, hval₁⟩ :=
      scorePosition_spec tk m input_ids start_pos s h (hb s le_rfl (by omega)) haa
    obtain ⟨h', hok, hrows, hcols, hframe, hval⟩ :=
      scoreLoop_spec tk m input_ids start_pos haa n (s + 1) h₁ (by omega)
        (fun p hp1 hp2 => hb p (by omega) (by omega))
    refine ⟨h', ?_, by rw [hrows, hrows₁], by rw [hcols, hcols₁], ?_, ?_⟩
    · rw [hrange]
      simp [scoreLoop, hok₁, hok]
    · intro r c hc
      rw [hframe r c (by omega), hframe₁ r c (Or.inl (by omega))]
    · intro p hp1 hp2 k hk tid htid
      rcases Nat.eq_or_lt_of_le hp1 with rfl | hlt
      · rw [hframe k (s - start_pos) (by omega)]
        exact hval₁ k hk tid htid
      · exact hval p hlt (by omega) k hk tid htid

/-- A letter of the inner loop without a vocabulary id makes the inner loop
fail with an unknownToken error naming such a letter. -/
lemma fillColumn_error (tk : Tokenizer) (lp : Nat → ℝ) (wt : ℝ) (col : Nat) :
    ∀ (l : List Char) (i : Nat) (h : Heatmap), (∃ aa ∈ l, tk.token_id aa = none) →
    ∃ aa, fillColumn tk lp wt col i l h = Except.error (ScoreError.unknownToken aa) ∧
      aa ∈ l ∧ tk.token_id aa = none
  | [], _, _, hbad => by simp at hbad
  | aa :: rest, i, h, hbad => by
    cases haa : tk.token_id aa with
    | none =>
      exact ⟨aa, by simp [fillColumn, Tokenizer.convert_tokens_to_ids, haa],
        List.mem_cons_self aa rest, haa⟩
    | some tid =>
      have hrest : ∃ a ∈ rest, tk.token_id a = none := by
        obtain ⟨a, ha, hnone⟩ := hbad
        rcases List.mem_cons.mp ha with rfl | ha'
        · exact absurd hnone (by simp [haa])
        · exact ⟨a, ha', hnone⟩
      obtain ⟨a, ha, hmem, hnone⟩ :=
        fillColumn_error tk lp wt col rest (i + 1) (h.set i col (lp tid - wt)) hrest
      refine ⟨a, ?_, List.mem_cons_of_mem aa hmem, hnone⟩
      simp [fillColumn, Tokenizer.convert_tokens_to_ids, haa, ha]

/-- An amino-acid letter without a vocabulary id makes one in-range position
iteration fail with an unknownToken error. -/
lemma scorePosition_error (tk : Tokenizer) (m : Model) (input_ids : List TokenId)
    (start_pos position : Nat) (h : Heatmap)
    (hpos : position < input_ids.length)
    (hbad : ∃ aa ∈ amino_acids, tk.token_id aa = none) :
    ∃ aa, scorePosition tk m input_ids start_pos position h =
        Except.error (ScoreError.unknownToken aa) ∧
      aa ∈ amino_acids ∧ tk.token_id aa = none := by
  obtain ⟨aa, ha, hmem, hnone⟩ :=
    fillColumn_error tk
      (fun j => m.log_probabilities (maskedInput tk input_ids position) position j)
      (m.log_probabilities (maskedInput tk input_ids position) position (input_ids.getD position 0))
      (position - start_pos) amino_acids 0 h hbad
  exact ⟨aa, by simpa [scorePosition, hpos] using ha, hmem, hnone⟩

/-- Umbrella lemma: on a sequence whose residues are all in the vocabulary,
with all amino-acid letters in the vocabulary and a valid range
1 <= start <= end <= L, generate_heatmap returns a 20 x (end - start + 1)
table whose scored cells hold the LLR values, after loading the tokenizer
and the model and rendering; the tokenized sequence places residue p at
internal index p. -/
lemma generate_heatmap_ok (env : Env) (s : List Char) (start_pos end_pos : Nat)
    (hres : ∀ c ∈ s, ((env.autoTokenizer_from_pretrained model_name).token_id c).isSome)
    (haa : ∀ aa ∈ amino_acids, ((env.autoTokenizer_from_pretrained model_name).token_id aa).isSome)
    (h1 : 1 ≤ start_pos) (h2 : start_pos ≤ end_pos) (h3 : end_pos ≤ s.length) :
    ∃ ids h,
      (env.autoTokenizer_from_pretrained model_name).encode s = Except.ok ids ∧
      generate_heatmap env s start_pos (some end_pos) =
        (Except.ok h,
          [Effect.load_tokenizer model_name, Effect.load_model model_name, Effect.show_plot]) ∧
      h.rows = 20 ∧ h.cols = end_pos - start_pos + 1 ∧
      (∀ p, 1 ≤ p → p ≤ s.length →
        (env.autoTokenizer_from_pretrained model_name).token_id (s.getD (p - 1) 'A') =
          some (ids.getD p 0)) ∧
      (∀ p, start_pos ≤ p → p ≤ end_pos → ∀ k, k < 20 → ∀ tid,
        (env.autoTokenizer_from_pretrained model_name).token_id (amino_acids.getD k 'A') =
          some tid →
        h.entry k (p - start_pos) =
          llr (env.esmForMaskedLM_from_pretrained model_name)
            (env.autoTokenizer_from_pretrained model_name) ids p tid) := by
  obtain ⟨ids, hids, hlen, hresval⟩ :=
    encode_ok (env.autoTokenizer_from_pretrained model_name) s hres
  have hdim : ¬((end_pos : Int) - (start_pos : Int) + 1 < 0) := by omega
  obtain ⟨h, hok, hrows, hcols, hframe, hval⟩ :=
    scoreLoop_spec (env.autoTokenizer_from_pretrained model_name)
      (env.esmForMaskedLM_from_pretrained model_name) ids start_pos haa
      (end_pos + 1 - start_pos) start_pos
      ⟨20, ((end_pos : Int) - (start_pos : Int) + 1).toNat, fun _ _ => 0⟩
      le_rfl (fun p hp1 hp2 => by rw [hlen]; omega)
  refine ⟨ids, h, hids, ?_, by rw [hrows],
    by
      rw [hcols]
      show ((end_pos : Int) - (start_pos : Int) + 1).toNat = end_pos - start_pos + 1
      omega,
    hresval, ?_⟩
  · simp only [generate_heatmap]
    rw [hids]
    simp only [Option.getD_some]
    rw [if_neg hdim]
    rw [hok]
    rfl
  · intro p hp1 hp2 k hk tid htid
    exact hval p hp1 (by omega) k hk tid htid

/-! Claim theorems. -/

/-- C1: for a sequence over the 20-letter alphabet and a valid range, the
LLR table cell of amino acid k at column p - start equals the log of the
softmax probability of that amino acid's token id minus the log of the
softmax probability of the original unmasked residue token at p, both taken
from the logits of one forward pass on the copy of the tokenized sequence
masked at position p. -/
theorem llr_cell_formula (env : Env) (s : List Char) (start_pos end_pos p k : Nat)
    (tid : TokenId)
    (halpha : ∀ c ∈ s, c ∈ amino_acids)
    (haa : ∀ a ∈ amino_acids, ((env.autoTokenizer_from_pretrained model_name).token_id a).isSome)
    (h1 : 1 ≤ start_pos) (h2 : start_pos ≤ end_pos) (h3 : end_pos ≤ s.length)
    (hp1 : start_pos ≤ p) (hp2 : p ≤ end_pos) (hk : k < 20)
    (htid : (env.autoTokenizer_from_pretrained model_name).token_id (amino_acids.getD k 'A') =
      some tid) :
    ∃ ids h,
      (env.autoTokenizer_from_pretrained model_name).encode s = Except.ok ids ∧
      (generate_heatmap env s start_pos (some end_pos)).1 = Except.ok h ∧
      (env.autoTokenizer_from_pretrained model_name).token_id (s.getD (p - 1) 'A') =
        some (ids.getD p 0) ∧
      h.entry k (p - start_pos) =
        (env.esmForMaskedLM_from_pretrained model_name).log_probabilities
          (maskedInput (env.autoTokenizer_from_pretrained model_name) ids p) p tid -
        (env.esmForMaskedLM_from_pretrained model_name).log_probabilities
          (maskedInput (env.autoTokenizer_from_pretrained model_name) ids p) p
          (ids.getD p 0) := by
  obtain ⟨ids, h, hids, hgen, hrows, hcols, hresval, hval⟩ :=
    generate_heatmap_ok env s start_pos end_pos
      (fun c hc => haa c (halpha c hc)) haa h1 h2 h3
  refine ⟨ids, h, hids, by rw [hgen], hresval p (by omega) (by omega), ?_⟩
  have := hval p hp1 hp2 k hk tid htid
  simpa [llr] using this

/-- Witness for C1 at the concrete sequence MA, range [1, 2], position 1,
amino-acid row 10 (the letter M) with token id 14. -/
theorem llr_cell_formula_witness :
    ∃ ids h,
      (testEnv.autoTokenizer_from_pretrained model_name).encode ("MA".toList) = Except.ok ids ∧
      (generate_heatmap testEnv ("MA".toList) 1 (some 2)).1 = Except.ok h ∧
      (testEnv.autoTokenizer_from_pretrained model_name).token_id
        (("MA".toList).getD (1 - 1) 'A') = some (ids.getD 1 0) ∧
      h.entry 10 (1 - 1) =
        (testEnv.esmForMaskedLM_from_pretrained model_name).log_probabilities
          (maskedInput (testEnv.autoTokenizer_from_pretrained model_name) ids 1) 1 14 -
        (testEnv.esmForMaskedLM_from_pretrained model_name).log_probabilities
          (maskedInput (testEnv.autoTokenizer_from_pretrained model_name) ids 1) 1
          (ids.getD 1 0) :=
  llr_cell_formula testEnv ("MA".toList) 1 2 1 10 14 (by decide) (by decide)
    (by decide) (by decide) (by decide) (by decide) (by decide) (by decide) (by decide)

/-- C2 counterexample: the spec says the internal masked index for position
p is p + 1, but for the sequence MA and p = 1 the mask is written at
internal index 1 and the token at index 2 = p + 1 is left untouched. -/
theorem masked_index_plus_one_counterexample :
    testTokenizer.encode ("MA".toList) = Except.ok [0, 14, 4, 2] ∧
    maskedInput testTokenizer [0, 14, 4, 2] 1 = [0, 32, 4, 2] ∧
    (maskedInput testTokenizer [0, 14, 4, 2] 1).getD 2 0 ≠ testTokenizer.mask_token_id ∧
    (maskedInput testTokenizer [0, 14, 4, 2] 1).getD 1 0 = testTokenizer.mask_token_id :=
  ⟨rfl, rfl, by decide, rfl⟩

/-- C2 amended: the internal index that is masked, whose logits row is read
and whose original token is taken as wild type is p itself (the start
sentinel occupies index 0), not p + 1: the masked copy holds the mask token
exactly at index p and agrees with the shared token list everywhere else,
and the position iteration reads logits and wild type at index p. -/
theorem masked_index_is_position (tk : Tokenizer) (m : Model) (input_ids : List TokenId)
    (start_pos p : Nat) (h : Heatmap) (hp : p < input_ids.length) :
    (maskedInput tk input_ids p).getD p 0 = tk.mask_token_id ∧
    (∀ j, j ≠ p → (maskedInput tk input_ids p).getD j 0 = input_ids.getD j 0) ∧
    scorePosition tk m input_ids start_pos p h =
      fillColumn tk (fun j => m.log_probabilities (maskedInput tk input_ids p) p j)
        (m.log_probabilities (maskedInput tk input_ids p) p (input_ids.getD p 0))
        (p - start_pos) 0 amino_acids h :=
  ⟨maskedInput_getD_self tk hp, fun _ hj => maskedInput_getD_ne tk input_ids hj,
    by simp [scorePosition, hp]⟩

/-- Witness for the amended C2 at a concrete token list and position 1. -/
theorem masked_index_is_position_witness :
    (maskedInput testTokenizer [0, 14, 4, 2] 1).getD 1 0 = testTokenizer.mask_token_id ∧
    (∀ j, j ≠ 1 → (maskedInput testTokenizer [0, 14, 4, 2] 1).getD j 0 =
      ([0, 14, 4, 2] : List TokenId).getD j 0) ∧
    scorePosition testTokenizer testModel [0, 14, 4, 2] 1 1 ⟨20, 1, fun _ _ => 0⟩ =
      fillColumn testTokenizer
        (fun j => testModel.log_probabilities (maskedInput testTokenizer [0, 14, 4, 2] 1) 1 j)
        (testModel.log_probabilities (maskedInput testTokenizer [0, 14, 4, 2] 1) 1
          (([0, 14, 4, 2] : List TokenId).getD 1 0))
        (1 - 1) 0 amino_acids ⟨20, 1, fun _ _ => 0⟩ :=
  masked_index_is_position testTokenizer testModel [0, 14, 4, 2] 1 1 ⟨20, 1, fun _ _ => 0⟩
    (by decide)

/-- C3: the LLR stored in the row of the wild-type residue (the residue of
the input sequence at p) in column p - start equals exactly 0. -/
theorem wildtype_row_zero (env : Env) (s : List Char) (start_pos end_pos p k : Nat)
    (halpha : ∀ c ∈ s, c ∈ amino_acids)
    (haa : ∀ a ∈ amino_acids, ((env.autoTokenizer_from_pretrained model_name).token_id a).isSome)
    (h1 : 1 ≤ start_pos) (h2 : start_pos ≤ end_pos) (h3 : end_pos ≤ s.length)
    (hp1 : start_pos ≤ p) (hp2 : p ≤ end_pos) (hk : k < 20)
    (hwt : amino_acids.getD k 'A' = s.getD (p - 1) 'A') :
    ∃ h, (generate_heatmap env s start_pos (some end_pos)).1 = Except.ok h ∧
      h.entry k (p - start_pos) = 0 := by
  obtain ⟨ids, h, hids, hgen, hrows, hcols, hresval, hval⟩ :=
    generate_heatmap_ok env s start_pos end_pos
      (fun c hc => haa c (halpha c hc)) haa h1 h2 h3
  refine ⟨h, by rw [hgen], ?_⟩
  have hwtid : (env.autoTokenizer_from_pretrained model_name).token_id (amino_acids.getD k 'A') =
      some (ids.getD p 0) := by
    rw [hwt]
    exact hresval p (by omega) (by omega)
  have := hval p hp1 hp2 k hk (ids.getD p 0) hwtid
  rw [this]
  simp [llr]

/-- Witness for C3 at the sequence MA, range [1, 2], position 1 and the row
of the wild-type residue M. -/
theorem wildtype_row_zero_witness :
    ∃ h, (generate_heatmap testEnv ("MA".toList) 1 (some 2)).1 = Except.ok h ∧
      h.entry 10 (1 - 1) = 0 :=
  wildtype_row_zero testEnv ("MA".toList) 1 2 1 10 (by decide) (by decide) (by decide)
    (by decide) (by decide) (by decide) (by decide) (by decide) (by decide)

/-- C4: for every valid range 1 <= start <= end <= L the returned LLR table
has exactly 20 rows and end - start + 1 columns (so start = end yields one
column, and start = 1 with end = L yields L columns). -/
theorem heatmap_dimensions (env : Env) (s : List Char) (start_pos end_pos : Nat)
    (halpha : ∀ c ∈ s, c ∈ amino_acids)
    (haa : ∀ a ∈ amino_acids, ((env.autoTokenizer_from_pretrained model_name).token_id a).isSome)
    (h1 : 1 ≤ start_pos) (h2 : start_pos ≤ end_pos) (h3 : end_pos ≤ s.length) :
    ∃ h, (generate_heatmap env s start_pos (some end_pos)).1 = Except.ok h ∧
      h.rows = 20 ∧ h.cols = end_pos - start_pos + 1 := by
  obtain ⟨ids, h, hids, hgen, hrows, hcols, hresval, hval⟩ :=
    generate_heatmap_ok env s start_pos end_pos
      (fun c hc => haa c (halpha c hc)) haa h1 h2 h3
  exact ⟨h, by rw [hgen], hrows, hcols⟩

/-- Witness for C4: the sequence MA with the full range [1, 2] yields a
20 x 2 table. -/
theorem heatmap_dimensions_witness :
    ∃ h, (generate_heatmap testEnv ("MA".toList) 1 (some 2)).1 = Except.ok h ∧
      h.rows = 20 ∧ h.cols = 2 - 1 + 1 :=
  heatmap_dimensions testEnv ("MA".toList) 1 2 (by decide) (by decide) (by decide)
    (by decide) (by decide)

/-- C5: the masked input used to score p differs from the shared tokenized
sequence exactly at the masked index (same length, mask at p, identical
tokens elsewhere), and the loop leaks no mask across iterations: from any
two initial tables, both runs of the position loop store in the cells of
column p - start the LLR values computed from the original unmasked token
list. -/
theorem mask_no_cross_contamination (tk : Tokenizer) (m : Model) (input_ids : List TokenId)
    (start_pos n s p : Nat) (h₁ h₂ : Heatmap)
    (haa : ∀ aa ∈ amino_acids, (tk.token_id aa).isSome)
    (hs : start_pos ≤ s)
    (hb : ∀ q, s ≤ q → q < s + n → q < input_ids.length)
    (hp1 : s ≤ p) (hp2 : p < s + n) :
    ((maskedInput tk input_ids p).length = input_ids.length ∧
      (maskedInput tk input_ids p).getD p 0 = tk.mask_token_id ∧
      ∀ j, j ≠ p → (maskedInput tk input_ids p).getD j 0 = input_ids.getD j 0) ∧
    ∃ g₁ g₂,
      scoreLoop tk m input_ids start_pos (List.range' s n) h₁ = Except.ok g₁ ∧
      scoreLoop tk m input_ids start_pos (List.range' s n) h₂ = Except.ok g₂ ∧
      ∀ k, k < 20 → ∀ tid, tk.token_id (amino_acids.getD k 'A') = some tid →
        g₁.entry k (p - start_pos) = llr m tk input_ids p tid ∧
        g₂.entry k (p - start_pos) = llr m tk input_ids p tid := by
  obtain ⟨g₁, hok₁, _, _, _, hval₁⟩ := scoreLoop_spec tk m input_ids start_pos haa n s h₁ hs hb
  obtain ⟨g₂, hok₂, _, _, _, hval₂⟩ := scoreLoop_spec tk m input_ids start_pos haa n s h₂ hs hb
  refine ⟨⟨length_maskedInput tk input_ids p, maskedInput_getD_self tk (hb p hp1 hp2),
    fun _ hj => maskedInput_getD_ne tk input_ids hj⟩, g₁, g₂, hok₁, hok₂, ?_⟩
  intro k hk tid htid
  exact ⟨hval₁ p hp1 hp2 k hk tid htid, hval₂ p hp1 hp2 k hk tid htid⟩

/-- Witness for C5: two runs over positions 1 and 2 of the tokenized MA,
one from the zero table and one from an all-ones table. -/
theorem mask_no_cross_contamination_witness :
    ((maskedInput testTokenizer [0, 14, 4, 2] 1).length = ([0, 14, 4, 2] : List TokenId).length ∧
      (maskedInput testTokenizer [0, 14, 4, 2] 1).getD 1 0 = testTokenizer.mask_token_id ∧
      ∀ j, j ≠ 1 → (maskedInput testTokenizer [0, 14, 4, 2] 1).getD j 0 =
        ([0, 14, 4, 2] : List TokenId).getD j 0) ∧
    ∃ g₁ g₂,
      scoreLoop testTokenizer testModel [0, 14, 4, 2] 1 (List.range' 1 2)
        ⟨20, 2, fun _ _ => 0⟩ = Except.ok g₁ ∧
      scoreLoop testTokenizer testModel [0, 14, 4, 2] 1 (List.range' 1 2)
        ⟨20, 2, fun _ _ => 1⟩ = Except.ok g₂ ∧
      ∀ k, k < 20 → ∀ tid, testTokenizer.token_id (amino_acids.getD k 'A') = some tid →
        g₁.entry k (1 - 1) = llr testModel testTokenizer [0, 14, 4, 2] 1 tid ∧
        g₂.entry k (1 - 1) = llr testModel testTokenizer [0, 14, 4, 2] 1 tid :=
  mask_no_cross_contamination testTokenizer testModel [0, 14, 4, 2] 1 2 1 1
    ⟨20, 2, fun _ _ => 0⟩ ⟨20, 2, fun _ _ => 1⟩ (by decide) (by decide)
    (fun q hq1 hq2 => by exact (by omega : q < 4)) (by decide) (by decide)

/-- C6: the scorer is a pure function of the sequence, the range and the
tokenizer and model resolved for the fixed pretrained name: two invocations
in environments agreeing on those resources produce identical results (and
identical effect traces); no hidden state or randomness influences the
output. -/
theorem score_deterministic (env env' : Env) (s : List Char) (start_pos : Nat)
    (end_pos? : Option Nat)
    (htk : env.autoTokenizer_from_pretrained model_name =
      env'.autoTokenizer_from_pretrained model_name)
    (hm : env.esmForMaskedLM_from_pretrained model_name =
      env'.esmForMaskedLM_from_pretrained model_name) :
    generate_heatmap env s start_pos end_pos? = generate_heatmap env' s start_pos end_pos? := by
  simp only [generate_heatmap, htk, hm]

/-- Witness for C6: two invocations under the test environment coincide. -/
theorem score_deterministic_witness :
    generate_heatmap testEnv ("MA".toList) 1 none = generate_heatmap testEnv ("MA".toList) 1 none :=
  score_deterministic testEnv testEnv ("MA".toList) 1 none rfl rfl

/-- C7: a request with start > end is silently skipped by the widget
callback: no computation is performed and no error is reported. -/
theorem update_heatmap_silent_skip (env : Env) (s : List Char) (start_pos end_pos : Nat)
    (hgt : end_pos < start_pos) :
    update_heatmap env s start_pos end_pos = none := by
  simp only [update_heatmap]
  rw [if_neg (by omega)]

/-- Witness for C7 at start = 5, end = 3. -/
theorem update_heatmap_silent_skip_witness :
    update_heatmap testEnv ("MA".toList) 5 3 = none :=
  update_heatmap_silent_skip testEnv ("MA".toList) 5 3 (by decide)

/-- C8: a residue of the sequence outside the vocabulary, or an amino acid
of the alphabet without a vocabulary token, makes the scorer fail with the
corresponding unrecognized-residue or unrecognized-token error; it never
returns a numeric table in those cases. -/
theorem unrecognized_residue_error (env : Env) (s : List Char) (start_pos end_pos : Nat)
    (h1 : 1 ≤ start_pos) (h2 : start_pos ≤ end_pos) (h3 : end_pos ≤ s.length)
    (hbad : (∃ c ∈ s, (env.autoTokenizer_from_pretrained model_name).token_id c = none) ∨
      ((∀ c ∈ s, ((env.autoTokenizer_from_pretrained model_name).token_id c).isSome) ∧
        ∃ aa ∈ amino_acids, (env.autoTokenizer_from_pretrained model_name).token_id aa = none)) :
    ∃ e, (generate_heatmap env s start_pos (some end_pos)).1 = Except.error e ∧
      ((∃ c, e = ScoreError.unknownResidue c ∧ c ∈ s ∧
          (env.autoTokenizer_from_pretrained model_name).token_id c = none) ∨
        (∃ aa, e = ScoreError.unknownToken aa ∧ aa ∈ amino_acids ∧
          (env.autoTokenizer_from_pretrained model_name).token_id aa = none)) := by
  rcases hbad with hres | ⟨hres, hmiss⟩
  · obtain ⟨c, hc, hmem, hnone⟩ :=
      encode_error (env.autoTokenizer_from_pretrained model_name) s hres
    refine ⟨ScoreError.unknownResidue c, ?_, Or.inl ⟨c, rfl, hmem, hnone⟩⟩
    simp only [generate_heatmap]
    rw [hc]
  · obtain ⟨ids, hids, hlen, hresval⟩ :=
      encode_ok (env.autoTokenizer_from_pretrained model_name) s hres
    have hdim : ¬((end_pos : Int) - (start_pos : Int) + 1 < 0) := by omega
    have hn : end_pos + 1 - start_pos = (end_pos - start_pos) + 1 := by omega
    have hrange : List.range' start_pos (end_pos + 1 - start_pos) =
        start_pos :: List.range' (start_pos + 1) (end_pos - start_pos) := by
      rw [hn]
      exact List.range'_succ _ _ 1
    obtain ⟨aa, ha, hmem, hnone⟩ :=
      scorePosition_error (env.autoTokenizer_from_pretrained model_name)
        (env.esmForMaskedLM_from_pretrained model_name) ids start_pos start_pos
        ⟨20, ((end_pos : Int) - (start_pos : Int) + 1).toNat, fun _ _ => 0⟩
        (by rw [hlen]; omega) hmiss
    refine ⟨ScoreError.unknownToken aa, ?_, Or.inr ⟨aa, rfl, hmem, hnone⟩⟩
    simp only [generate_heatmap]
    rw [hids]
    simp only [Option.getD_some]
    rw [if_neg hdim, hrange]
    simp only [scoreLoop]
    rw [ha]

/-- Witness for C8: the sequence MZ contains the out-of-alphabet residue Z,
and the scorer fails with an unrecognized-residue error. -/
theorem unrecognized_residue_error_witness :
    ∃ e, (generate_heatmap testEnv ("MZ".toList) 1 (some 2)).1 = Except.error e ∧
      ((∃ c, e = ScoreError.unknownResidue c ∧ c ∈ "MZ".toList ∧
          (testEnv.autoTokenizer_from_pretrained model_name).token_id c = none) ∨
        (∃ aa, e = ScoreError.unknownToken aa ∧ aa ∈ amino_acids ∧
          (testEnv.autoTokenizer_from_pretrained model_name).token_id aa = none)) :=
  unrecognized_residue_error testEnv ("MZ".toList) 1 2 (by decide) (by decide) (by decide)
    (Or.inl ⟨'Z', by decide, by decide⟩)

/-- C9 counterexample: the claim says a scoring call performs no model or
tokenizer loading, but a concrete call's effect trace contains the
load_model call for the fixed pretrained checkpoint. -/
theorem scorer_loads_model_counterexample :
    Effect.load_model model_name ∈ (generate_heatmap testEnv ("M".toList) 1 none).2 := by
  have h : (generate_heatmap testEnv ("M".toList) 1 none).2 =
      [Effect.load_tokenizer model_name, Effect.load_model model_name, Effect.show_plot] := rfl
  rw [h]
  simp

/-- C9 amended: generate_heatmap does not receive the model and tokenizer
from the caller; it loads both itself from the fixed pretrained name at the
start of every scoring call: every call's effect trace begins with the
tokenizer load followed by the model load. -/
theorem scorer_loads_model_every_call (env : Env) (s : List Char) (start_pos : Nat)
    (end_pos? : Option Nat) :
    ((generate_heatmap env s start_pos end_pos?).2).take 2 =
      [Effect.load_tokenizer model_name, Effect.load_model model_name] := by
  simp only [generate_heatmap]
  split
  · rfl
  · split
    · rfl
    · split
      · rfl
      · rfl

/-- C10: the start <= end guard lives only in the widget callback; a direct
call of generate_heatmap with start > end is not a silent no-op: the
callback skips, while generate_heatmap still attempts the table of
end - start + 1 columns, yielding a real zero-column table when
start = end + 1 and a negative-dimension failure when start > end + 1. -/
theorem generate_heatmap_no_validation (env : Env) (s : List Char) (start_pos end_pos : Nat)
    (hres : ∀ c ∈ s, ((env.autoTokenizer_from_pretrained model_name).token_id c).isSome)
    (hgt : end_pos < start_pos) :
    update_heatmap env s start_pos end_pos = none ∧
    (start_pos = end_pos + 1 →
      (generate_heatmap env s start_pos (some end_pos)).1 =
        Except.ok ⟨20, 0, fun _ _ => 0⟩) ∧
    (end_pos + 1 < start_pos →
      (generate_heatmap env s start_pos (some end_pos)).1 =
        Except.error (ScoreError.negativeDimension
          ((end_pos : Int) - (start_pos : Int) + 1))) := by
  obtain ⟨ids, hids, hlen, hresval⟩ :=
    encode_ok (env.autoTokenizer_from_pretrained model_name) s hres
  refine ⟨by simp only [update_heatmap]; rw [if_neg (by omega)], ?_, ?_⟩
  · intro heq
    have hd : (end_pos : Int) - (start_pos : Int) + 1 = 0 := by omega
    have hn : end_pos + 1 - start_pos = 0 := by omega
    simp only [generate_heatmap]
    rw [hids]
    simp only [Option.getD_some]
    rw [hd, hn]
    rw [if_neg (by norm_num)]
    simp [scoreLoop]
  · intro hlt
    have hd : (end_pos : Int) - (start_pos : Int) + 1 < 0 := by omega
    simp only [generate_heatmap]
    rw [hids]
    simp only [Option.getD_some]
    rw [if_pos hd]

/-- Witness for C10 at the sequence MA with start = 3, end = 1. -/
theorem generate_heatmap_no_validation_witness :
    update_heatmap testEnv ("MA".toList) 3 1 = none ∧
    (3 = 1 + 1 →
      (generate_heatmap testEnv ("MA".toList) 3 (some 1)).1 =
        Except.ok ⟨20, 0, fun _ _ => 0⟩) ∧
    (1 + 1 < 3 →
      (generate_heatmap testEnv ("MA".toList) 3 (some 1)).1 =
        Except.error (ScoreError.negativeDimension (((1 : Nat) : Int) - ((3 : Nat) : Int) + 1))) :=
  generate_heatmap_no_validation testEnv ("MA".toList) 3 1 (by decide) (by decide)

end Esm
